/-
Verification of the Reddish-Trends engine against its specification.

The Python modules are shallowly embedded as Lean definitions:

* `src/data_processing.py`  — the cross-source selection algorithm
  (`get_top_stock`, `get_worst_stock`, `get_rising_stock`);
* `src/sentiment_analysis.py` — score normalization, mention extraction and
  the per-source classifier (`normalize_score`, `extract_stock_mentions`,
  `get_reddit_analysis`);
* `src/market_analysis.py`  — `merge_stock_data`;
* `src/market_sentiment_analysis.py` — `run_general_analysis`;
* `src/main.py`             — the freshness cache (`is_cache_outdated` and the
  `getgeneralanalysis` branch of `get_analysis`).

Python floats are modelled as exact rationals (ℚ); Python's `round(x, 2)`
(round half to even) is modelled exactly on ℚ.  External collaborators
(Reddit fetch, VADER scorer, yfinance quotes, GPT) are taken as parameters
or pre-fetched inputs, never re-implemented.
-/
import Mathlib

/-- A stock record as consumed by `data_processing.py`.  The Python dicts carry
further keys (`price`, `rsi`, …) that the selection functions never read;
only the keys actually consumed (`symbol`, `count`, `sentiment`) are kept. -/
structure Stock where
  symbol : String
  count : Int
  sentiment : ℚ
  deriving DecidableEq, Repr

/-- One element of the `analysis` list handed to the selection functions: the
Python dict `{subreddit: {"top_stocks": …, "worst_stocks": …, "rising_stocks": …}}`.
`list(result.keys())[0]` recovers the sole key; here it is the `name` field. -/
structure Source where
  name : String
  top_stocks : List Stock
  worst_stocks : List Stock
  rising_stocks : List Stock
  deriving DecidableEq, Repr

namespace DataProcessing

/-- Step 1 of `get_top_stock`: the stocks of one source's `top_stocks` list whose
sentiment equals the sentiment at the sorted list's head; an empty list is
skipped (`continue`). -/
def topCandidates (result : Source) : List Stock :=
  match result.top_stocks with
  | [] => []
  | s :: _ => result.top_stocks.filter (fun stock => stock.sentiment == s.sentiment)

/-- Step 1 of `get_worst_stock`: the stocks of one source's `worst_stocks` list whose
sentiment equals the sentiment at the sorted list's tail (`worst_stocks[-1]`). -/
def worstCandidates (result : Source) : List Stock :=
  match result.worst_stocks.getLast? with
  | none => []
  | some s => result.worst_stocks.filter (fun stock => stock.sentiment == s.sentiment)

/-- Step 1 of `get_rising_stock`: as for top, over the `rising_stocks` list. -/
def risingCandidates (result : Source) : List Stock :=
  match result.rising_stocks with
  | [] => []
  | s :: _ => result.rising_stocks.filter (fun stock => stock.sentiment == s.sentiment)

/-- `stock_counts[symbol]`: how many entries of the candidate pool carry `symbol`
(the Python loop builds the same counts into a dict). -/
def countSym (pool : List Stock) (symbol : String) : Nat :=
  (pool.filter (fun stock => stock.symbol == symbol)).length

/-- `max_appearances = max(stock_counts.values())`: the maximum, over the pool,
of each entry's symbol count (duplicated symbols repeat the same value, which
does not change the maximum). -/
def maxAppearances (pool : List Stock) : Nat :=
  (pool.map (fun stock => countSym pool stock.symbol)).foldl max 0

/-- `most_frequent_stocks`: the pool entries whose symbol count equals
`max_appearances`. -/
def mostFrequent (pool : List Stock) : List Stock :=
  pool.filter (fun stock => countSym pool stock.symbol == maxAppearances pool)

/-- One step of Python's `max(..., key=...)` scan: replace the running best only
when the candidate's key is strictly greater. -/
def pyMaxStep (best c : Stock) : Stock :=
  if c.count > best.count then c else best

/-- Python's `max(stocks, key=lambda c: c["count"])`: the first element attaining
the maximal count; `none` on the empty list. -/
def pyMaxByCount : List Stock → Option Stock
  | [] => none
  | s :: rest => some (rest.foldl pyMaxStep s)

/-- Steps 2–3 shared by `get_top_stock` and `get_worst_stock` (their bodies after
building the pool are textually identical): count symbol reappearances, keep the
most frequent entries, return the first entry of maximal `count`. -/
def selectByCount (pool : List Stock) : Option Stock :=
  if pool.isEmpty then none
  else pyMaxByCount (mostFrequent pool)

def get_top_stock (analysis : List Source) : Option Stock :=
  selectByCount (analysis.flatMap topCandidates)

def get_worst_stock (analysis : List Source) : Option Stock :=
  selectByCount (analysis.flatMap worstCandidates)

/-- Stable insertion (descending by `count`) used to model Python's stable
`sorted(stocks, key=lambda c: c["count"], reverse=True)`. -/
def insertByCountDesc (s : Stock) : List Stock → List Stock
  | [] => [s]
  | t :: ts => if t.count > s.count then t :: insertByCountDesc s ts else s :: t :: ts

def sortByCountDesc (l : List Stock) : List Stock :=
  l.foldr insertByCountDesc []

/-- Step 3 of `get_rising_stock`: sort the survivors by `count` descending and
slice `[:3]` — the slice bound `3` is hard-coded in the source. -/
def selectRisingByCount (pool : List Stock) : Option (List Stock) :=
  if pool.isEmpty then none
  else some ((sortByCountDesc (mostFrequent pool)).take 3)

/-- `get_rising_stock(analysis, limit=1)`.  The `limit` parameter is declared
(default `1`) but never read by the body, exactly as in the source. -/
def get_rising_stock (analysis : List Source) (limit : Int := 1) : Option (List Stock) :=
  selectRisingByCount (analysis.flatMap risingCandidates)

/-- A candidate pool has no unresolved final tie-break when any two Step-2
survivors with equal within-source mention count are the same record. -/
def TieFree (pool : List Stock) : Prop :=
  ∀ a ∈ mostFrequent pool, ∀ b ∈ mostFrequent pool, a.count = b.count → a = b

instance (pool : List Stock) : Decidable (TieFree pool) := by
  unfold TieFree
  exact inferInstance

end DataProcessing

namespace SentimentAnalysis

/-- One fetched post as consumed by `extract_stock_mentions`: `tickerMatches` is the
list of hits of the ticker regex `\$[A-Z]+` on the post's `full_text` in text
order, and `score` is the opaque VADER collaborator's compound score
`analyze_sentiment(full_text)` (spec §6: `score(text) → float in [-1,1]`,
modelled as an exact rational). -/
structure RawPost where
  tickerMatches : List String
  score : ℚ
  deriving DecidableEq, Repr

/-- `normalize_score`: `score * 10 if score > 0 or score < 0 else 0`. -/
def normalize_score (score : ℚ) : ℚ :=
  if 0 < score ∨ score < 0 then score * 10 else 0

/-- Python's `round` to the nearest integer, halves to the even neighbour. -/
def roundHalfEven (x : ℚ) : Int :=
  if x - ⌊x⌋ < 1/2 then ⌊x⌋
  else if 1/2 < x - ⌊x⌋ then ⌊x⌋ + 1
  else if 2 ∣ ⌊x⌋ then ⌊x⌋ else ⌊x⌋ + 1

/-- Python's `round(x, 2)` on an exact rational. -/
def roundq2 (x : ℚ) : ℚ :=
  (roundHalfEven (x * 100) : ℚ) / 100

/-- The in-progress value of `stock_mentions[sym]` while the extraction loop
runs: occurrence count, accumulator list of (rounded) per-occurrence scores,
and the last post in which the symbol appeared. -/
structure MentionData where
  count : Nat
  sentiments : List ℚ
  post : Option RawPost
  deriving DecidableEq, Repr

/-- A finalized entry of the extractor's output: the accumulator list has been
reduced to a single normalized average sentiment. -/
structure ExtractedMention where
  count : Nat
  sentiment : ℚ
  post : Option RawPost
  deriving DecidableEq, Repr

/-- Lookup in an association list standing for a Python dict (keys are unique
by construction; insertion order is preserved). -/
def assocFind : List (String × α) → String → Option α
  | [], _ => none
  | (s, d) :: rest, sym => if s == sym then some d else assocFind rest sym

/-- The body of `for stock in matches`: bump the count, append the rounded
score, record the post (last write wins); a first occurrence appends a fresh
entry at the end, as `defaultdict` insertion does. -/
def updateMention (st : List (String × MentionData)) (sym : String) (sc : ℚ)
    (p : RawPost) : List (String × MentionData) :=
  match st with
  | [] => [(sym, ⟨1, [roundq2 sc], some p⟩)]
  | (s, d) :: rest =>
    if s == sym then (s, ⟨d.count + 1, d.sentiments ++ [roundq2 sc], some p⟩) :: rest
    else (s, d) :: updateMention rest sym sc p

/-- Processing of one post: fold `updateMention` over its regex matches. -/
def processPost (st : List (String × MentionData)) (p : RawPost) :
    List (String × MentionData) :=
  p.tickerMatches.foldl (fun st2 sym => updateMention st2 sym p.score p) st

/-- The accumulation phase of `extract_stock_mentions` over all posts. -/
def accumulateMentions (posts : List RawPost) : List (String × MentionData) :=
  posts.foldl processPost []

/-- The final pass over one accumulator entry: replace the score list by
`round(normalize_score(avg), 2)` where `avg` is the list's arithmetic mean.
The Python guard `if stock_mentions[stock]["sentiment"]:` skips an empty
accumulator (which never occurs, since a stored symbol has at least one
occurrence); the `isEmpty` branch returning `0` is likewise unreachable. -/
def finalizeMention (d : MentionData) : ExtractedMention :=
  ⟨d.count,
   if d.sentiments.isEmpty then 0
   else roundq2 (normalize_score (d.sentiments.sum / (d.sentiments.length : ℚ))),
   d.post⟩

/-- `extract_stock_mentions`: accumulate over all posts, then finalize every
stored symbol's entry. -/
def extract_stock_mentions (posts : List RawPost) : List (String × ExtractedMention) :=
  (accumulateMentions posts).map (fun e => (e.1, finalizeMention e.2))

/-- Proof-side view of the accumulator: the score list stored for `sym`
(empty when the symbol is absent). -/
def sentimentsOf (st : List (String × MentionData)) (sym : String) : List ℚ :=
  match assocFind st sym with
  | none => []
  | some d => d.sentiments

/-- Proof-side view of the accumulator: the occurrence count stored for `sym`. -/
def countOf (st : List (String × MentionData)) (sym : String) : Nat :=
  match assocFind st sym with
  | none => 0
  | some d => d.count

/-- Specification-side view of the accumulator: the rounded score of every
occurrence of `sym`, one per regex match, in post order. -/
def scoresFor (posts : List RawPost) (sym : String) : List ℚ :=
  posts.flatMap (fun p => (p.tickerMatches.filter (fun s => s == sym)).map (fun _ => roundq2 p.score))

/-- A classified mention as sliced by `get_reddit_analysis`: the value part of
one `sentiment_data.items()` tuple. -/
structure Mention where
  count : Nat
  sentiment : ℚ
  post : Option RawPost
  deriving DecidableEq, Repr

/-- Stable insertion (descending by sentiment) modelling Python's stable
`sorted(items, key=lambda x: x[1]["sentiment"], reverse=True)`. -/
def insertBySentDesc (x : String × Mention) :
    List (String × Mention) → List (String × Mention)
  | [] => [x]
  | y :: ys => if y.2.sentiment > x.2.sentiment then y :: insertBySentDesc x ys
               else x :: y :: ys

def sortBySentDesc (l : List (String × Mention)) : List (String × Mention) :=
  l.foldr insertBySentDesc []

/-- Python's clamped index for a one-sided slice of a list of length `len`:
nonnegative indices count from the front, negative ones from the back. -/
def pySliceIdx (len : Nat) (i : Int) : Nat :=
  if 0 ≤ i then min i.toNat len else len - min (-i).toNat len

/-- `l[i:]` -/
def pySliceFrom (l : List α) (i : Int) : List α :=
  l.drop (pySliceIdx l.length i)

/-- `l[:i]` -/
def pySliceTo (l : List α) (i : Int) : List α :=
  l.take (pySliceIdx l.length i)

/-- The classification core of `get_reddit_analysis`, applied to the extractor
output `sentiment_data` (the post fetch is the external collaborator):
sort by sentiment descending, then
`top_stocks = sorted_stocks[: limit // 2]`,
`worst_stocks = sorted_stocks[-limit // 2 :]`,
`rising_stocks = [s for s in sorted_stocks if s[1]["sentiment"] > 0.5]`.
Python's `//` is floor division (`Int.fdiv`), and `-limit // 2` parses as
`(-limit) // 2`. -/
def get_reddit_analysis (sentiment_data : List (String × Mention)) (limit : Int) :
    List (String × Mention) × List (String × Mention) × List (String × Mention) :=
  let sorted_stocks := sortBySentDesc sentiment_data
  let top_stocks := pySliceTo sorted_stocks (Int.fdiv limit 2)
  let worst_stocks := pySliceFrom sorted_stocks (Int.fdiv (-limit) 2)
  let rising_stocks := sorted_stocks.filter (fun s => mkRat 1 2 < s.2.sentiment)
  (top_stocks, worst_stocks, rising_stocks)

end SentimentAnalysis

namespace MarketAnalysis

/-- The sentiment-side fields of one entry `(stock, details)` of a category
list in the reddit-analysis mapping handed to `merge_stock_data`. -/
structure Details where
  count : Int
  sentiment : ℚ
  post : String
  deriving DecidableEq, Repr

/-- A successful answer of the market-data collaborator `get_stock_data`. -/
structure QuoteData where
  company_name : String
  price : ℚ
  high : ℚ
  low : ℚ
  change : ℚ
  percentage_change : ℚ
  rsi : ℚ
  deriving DecidableEq, Repr

/-- The collaborator's answer: market data, or a dict containing `"error"`. -/
inductive QuoteResult where
  | ok (d : QuoteData)
  | err (msg : String)
  deriving DecidableEq, Repr

/-- One enriched output entry of `merge_stock_data`. -/
structure EnrichedStock where
  symbol : String
  company_name : Option String
  count : Int
  sentiment : ℚ
  post : String
  price : Option ℚ
  high : Option ℚ
  low : Option ℚ
  change : Option ℚ
  percentage_change : Option ℚ
  rsi : Option ℚ
  error : Option String
  deriving DecidableEq, Repr

/-- `stock.replace("$", "")`: drop every dollar sign from the symbol. -/
def stripDollar (s : String) : String :=
  ⟨s.data.filter (fun c => c != '$')⟩

/-- The per-entry body of `merge_stock_data`'s inner loop, parameterized by the
market-data collaborator `quote` (`get_stock_data` does network I/O). -/
def enrichStock (quote : String → QuoteResult) (entry : String × Details) : EnrichedStock :=
  match quote (stripDollar entry.1) with
  | .err msg =>
    ⟨entry.1, none, entry.2.count, entry.2.sentiment, entry.2.post,
     none, none, none, none, none, none, some msg⟩
  | .ok d =>
    ⟨entry.1, some d.company_name, entry.2.count, entry.2.sentiment, entry.2.post,
     some d.price, some d.high, some d.low, some d.change, some d.percentage_change,
     some d.rsi, none⟩

/-- `merge_stock_data(reddit_analysis, stock_period)`: iterate the categories in
order, skip a category whose value is `None` (`if stocks is None: continue`),
and map every `(stock, details)` entry through the enrichment. -/
def merge_stock_data (quote : String → QuoteResult)
    (reddit_analysis : List (String × Option (List (String × Details)))) :
    List (String × List EnrichedStock) :=
  reddit_analysis.filterMap (fun e =>
    e.2.map (fun stocks => (e.1, stocks.map (enrichStock quote))))

end MarketAnalysis

namespace MarketSentimentAnalysis

open DataProcessing

/-- What one source's collection attempt produced: its three category lists, or
a raised `CollectionError` from the fetch collaborator. -/
inductive FetchOutcome where
  | ok (top worst rising : List Stock)
  | failed
  deriving DecidableEq, Repr

/-- One subreddit together with the outcome its fetch collaborator will
deliver on this run. -/
structure SourceFetch where
  name : String
  outcome : FetchOutcome
  deriving DecidableEq, Repr

/-- Modelled from the spec: the per-source collection boundary — the
five-parameter `general_reddit_analysis(subreddit, limit, comment_limit,
post_type, time_filter)` invoked by `general_stock_and_social_analysis` — is
absent from `src/` (`src/sentiment_analysis.py` only has an older two-parameter
version).  Per §7, a fetch collaborator failure (`CollectionError`) is caught
at this boundary and the source contributes an empty `SourceCategoryResult`;
on success the three classified category lists come back unchanged. -/
def collectSource (s : SourceFetch) : Source :=
  match s.outcome with
  | .ok top worst rising => ⟨s.name, top, worst, rising⟩
  | .failed => ⟨s.name, [], [], []⟩

/-- `run_general_analysis`: one collection task per subreddit; `futures` are
awaited in submission order (`future.result() for future in futures`), so the
result list is in subreddit-list order. -/
def run_general_analysis (subreddits : List SourceFetch) : List Source :=
  subreddits.map collectSource

end MarketSentimentAnalysis

namespace Main

/-- The stored cache value: the response payload (opaque here) plus the parsed
`"last_updated"` timestamp in seconds (`none` models a missing
`"last_updated"` key or a `strptime` failure, both of which
`is_cache_outdated` answers with `True`). -/
structure CachedAnalysis where
  body : String
  last_updated : Option Int
  deriving DecidableEq, Repr

/-- `is_cache_outdated()`: `True` when there is no cached analysis or no
readable timestamp, otherwise `diff.total_seconds() > 24 * 60 * 60`. -/
def is_cache_outdated (cached_analysis : Option CachedAnalysis) (now : Int) : Bool :=
  match cached_analysis with
  | none => true
  | some c =>
    match c.last_updated with
    | none => true
    | some t => now - t > 24 * 60 * 60

/-- Outcome of one `getgeneralanalysis` request: the served response, the cache
contents afterwards, and how many times `perform_general_analysis` ran. -/
structure GetResult where
  response : CachedAnalysis
  newCache : Option CachedAnalysis
  recomputes : Nat
  deriving DecidableEq, Repr

/-- The `getgeneralanalysis` branch of `get_analysis`:
`if cached_analysis and not is_cache_outdated(): return cached_analysis`
else run `perform_general_analysis()` (which stores its result, `fresh`, into
the cache) and return it. -/
def getgeneralanalysis (cached_analysis : Option CachedAnalysis) (now : Int)
    (fresh : CachedAnalysis) : GetResult :=
  match cached_analysis with
  | some c =>
    if ¬ (is_cache_outdated (some c) now) then ⟨c, some c, 0⟩
    else ⟨fresh, some fresh, 1⟩
  | none => ⟨fresh, some fresh, 1⟩

end Main

/-! ## Concrete fixtures used by counterexamples and witnesses -/

namespace Fixtures

open DataProcessing MarketSentimentAnalysis SentimentAnalysis MarketAnalysis Main

/-- The §8 scenario of C8: sources A and B agree on SPY at sentiment 8.7,
source C's only top-sentiment entry is GPRO at 8.9. -/
def sSPY : Stock := ⟨"SPY", 2, mkRat 87 10⟩

def sGPRO : Stock := ⟨"GPRO", 2, mkRat 89 10⟩

def srcA8 : Source := ⟨"A", [sSPY], [], []⟩

def srcB8 : Source := ⟨"B", [sSPY], [], []⟩

def srcC8 : Source := ⟨"C", [sGPRO], [], []⟩

/-- A single source whose top list carries AAPL (count 4) and TSLA (count 1)
tied at the same maximal sentiment, with one worst entry. -/
def srcOne : Source := ⟨"r", [⟨"AAPL", 4, 1⟩, ⟨"TSLA", 1, 1⟩], [⟨"WMT", 1, -1⟩], []⟩

/-- One source with three rising entries tied at the maximal sentiment. -/
def srcRise : Source := ⟨"S", [], [], [⟨"A", 3, 1⟩, ⟨"B", 2, 1⟩, ⟨"C", 1, 1⟩]⟩

/-- Two sources whose single top entries tie on sentiment, pool count and
mention count but carry different symbols. -/
def srcX : Source := ⟨"X", [⟨"AAA", 1, 1⟩], [], []⟩

def srcY : Source := ⟨"Y", [⟨"BBB", 1, 1⟩], [], []⟩

/-- Two sources with distinct mention counts in every category (tie-free). -/
def srcP : Source := ⟨"P", [⟨"PPP", 5, 1⟩], [⟨"PPP", 5, -1⟩], [⟨"PPP", 5, 1⟩]⟩

def srcQ : Source := ⟨"Q", [⟨"QQQ", 2, 1⟩], [⟨"QQQ", 2, -1⟩], [⟨"QQQ", 2, 1⟩]⟩

/-- One succeeding and one failing collection task. -/
def fetchOk : SourceFetch := ⟨"ok", .ok [⟨"T", 1, 1⟩] [⟨"T", 1, 1⟩] [⟨"T", 1, 1⟩]⟩

def fetchBad : SourceFetch := ⟨"bad", .failed⟩

/-- A cached response computed at epoch second 0 and a fresh recomputation. -/
def cCache : CachedAnalysis := ⟨"stored response", some 0⟩

def cFresh : CachedAnalysis := ⟨"fresh response", some 86400⟩

/-- Three posts, each matching `$A` once, with already-two-decimal scores
0.01, 0.01 and 0.03: the accumulator average is 1/60, whose normalized value
10/60 = 1/6 is not representable in two decimals. -/
def c7posts : List RawPost :=
  [⟨["$A"], mkRat 1 100⟩, ⟨["$A"], mkRat 1 100⟩, ⟨["$A"], mkRat 3 100⟩]

/-- One classified mention entry, used with the odd limit 1. -/
def eC4 : String × Mention := ("$A", ⟨1, 1, none⟩)

/-- A deterministic stand-in for the market-data collaborator: fails exactly on
the symbol `BAD` (after the dollar sign is stripped). -/
def quoteFix : String → QuoteResult := fun sym =>
  if sym == "BAD" then .err "no price data found"
  else .ok ⟨sym ++ " Inc", 10, 12, 9, 1, 2, 50⟩

/-- A reddit-analysis mapping with one `None` category, one failing entry and
one succeeding entry. -/
def raFix : List (String × Option (List (String × Details))) :=
  [("top_stocks", some [("$GOOD", ⟨2, 3, "p1"⟩), ("$BAD", ⟨1, -1, "p2"⟩)]),
   ("worst_stocks", none),
   ("rising_stocks", some [("$GOOD", ⟨2, 3, "p1"⟩)])]

end Fixtures

/-! ## Theorems: the cross-source selection algorithm (`data_processing.py`) -/

namespace DataProcessing

lemma pyMaxStep_eq_or (best c : Stock) : pyMaxStep best c = best ∨ pyMaxStep best c = c := by
  unfold pyMaxStep; split
  · right; rfl
  · left; rfl

lemma le_pyMaxStep_left (best c : Stock) : best.count ≤ (pyMaxStep best c).count := by
  unfold pyMaxStep; split <;> omega

lemma le_pyMaxStep_right (best c : Stock) : c.count ≤ (pyMaxStep best c).count := by
  unfold pyMaxStep; split <;> omega

lemma foldl_pyMaxStep_mem (l : List Stock) : ∀ a, l.foldl pyMaxStep a ∈ a :: l := by
  induction l with
  | nil => intro a; simp
  | cons c ls ih =>
    intro a
    simp only [List.foldl_cons]
    have h := ih (pyMaxStep a c)
    rcases List.mem_cons.mp h with h2 | h2
    · rw [h2]
      rcases pyMaxStep_eq_or a c with h1 | h1 <;> rw [h1] <;> simp
    · exact List.mem_cons_of_mem _ (List.mem_cons_of_mem _ h2)

lemma foldl_pyMaxStep_le (l : List Stock) : ∀ a,
    a.count ≤ (l.foldl pyMaxStep a).count ∧
    ∀ t ∈ l, t.count ≤ (l.foldl pyMaxStep a).count := by
  induction l with
  | nil => intro a; simp
  | cons c ls ih =>
    intro a
    simp only [List.foldl_cons]
    obtain ⟨h1, h2⟩ := ih (pyMaxStep a c)
    refine ⟨le_trans (le_pyMaxStep_left a c) h1, ?_⟩
    intro t ht
    rcases List.mem_cons.mp ht with rfl | ht
    · exact le_trans (le_pyMaxStep_right a t) h1
    · exact h2 t ht

lemma pyMaxByCount_spec {l : List Stock} {s : Stock} (h : pyMaxByCount l = some s) :
    s ∈ l ∧ ∀ t ∈ l, t.count ≤ s.count := by
  cases l with
  | nil => exact absurd h (by simp [pyMaxByCount])
  | cons a rest =>
    simp only [pyMaxByCount, Option.some.injEq] at h
    subst h
    refine ⟨foldl_pyMaxStep_mem rest a, ?_⟩
    intro t ht
    rcases List.mem_cons.mp ht with h3 | h3
    · rw [h3]; exact (foldl_pyMaxStep_le rest a).1
    · exact (foldl_pyMaxStep_le rest a).2 t h3

lemma pyMaxByCount_eq_none {l : List Stock} : pyMaxByCount l = none ↔ l = [] := by
  cases l <;> simp [pyMaxByCount]

lemma mem_mostFrequent {pool : List Stock} {s : Stock} (h : s ∈ mostFrequent pool) :
    s ∈ pool ∧ countSym pool s.symbol = maxAppearances pool := by
  unfold mostFrequent at h
  have h2 := List.mem_filter.mp h
  exact ⟨h2.1, by simpa using h2.2⟩

/-- Whatever `selectByCount` returns belongs to the pool, has a symbol of
maximal reappearance count, and a maximal mention count among the Step-2
survivors. -/
lemma selectByCount_spec {pool : List Stock} {s : Stock} (h : selectByCount pool = some s) :
    s ∈ pool ∧ countSym pool s.symbol = maxAppearances pool ∧
    ∀ t ∈ mostFrequent pool, t.count ≤ s.count := by
  unfold selectByCount at h
  split at h
  · exact absurd h (by simp)
  · obtain ⟨hmem, hmax⟩ := pyMaxByCount_spec h
    obtain ⟨hp, hc⟩ := mem_mostFrequent hmem
    exact ⟨hp, hc, hmax⟩

end DataProcessing

open DataProcessing Fixtures in
/-- C1: whenever `get_top_stock` returns a stock, that stock is an entry of the
Step-1 candidate pool (some source's `top_stocks` entries tied at that source's
head sentiment), its symbol's number of pool entries equals the maximal such
count over the pool (Step 2), and its within-source mention count is maximal
among the Step-2 survivors (Step 3); symmetrically `get_worst_stock` over the
pool built from each source's `worst_stocks` tail sentiment. -/
theorem C1_three_step_selection (analysis : List Source) :
    (∀ s, get_top_stock analysis = some s →
        s ∈ analysis.flatMap topCandidates ∧
        countSym (analysis.flatMap topCandidates) s.symbol
          = maxAppearances (analysis.flatMap topCandidates) ∧
        ∀ t ∈ mostFrequent (analysis.flatMap topCandidates), t.count ≤ s.count) ∧
    (∀ s, get_worst_stock analysis = some s →
        s ∈ analysis.flatMap worstCandidates ∧
        countSym (analysis.flatMap worstCandidates) s.symbol
          = maxAppearances (analysis.flatMap worstCandidates) ∧
        ∀ t ∈ mostFrequent (analysis.flatMap worstCandidates), t.count ≤ s.count) :=
  ⟨fun _ h => selectByCount_spec h, fun _ h => selectByCount_spec h⟩

open DataProcessing Fixtures in
/-- Witness for C1 at a concrete input: on the single source `srcOne`,
`get_top_stock` returns the AAPL entry, which indeed lies in the candidate
pool. -/
theorem C1_three_step_selection_witness :
    (⟨"AAPL", 4, 1⟩ : Stock) ∈ [srcOne].flatMap topCandidates :=
  ((C1_three_step_selection [srcOne]).1 ⟨"AAPL", 4, 1⟩ (by decide)).1

open DataProcessing Fixtures in
/-- C8: with sources A = {SPY: 8.7, count 2}, B = {SPY: 8.7, count 2} and
C = {GPRO: 8.9, count 2} (GPRO being C's only top-sentiment entry),
`get_top_stock` returns the SPY entry — the pool reappearance count 2 beats
GPRO's 1 even though GPRO's sentiment 8.9 exceeds SPY's 8.7. -/
theorem C8_reappearance_beats_sentiment :
    get_top_stock [srcA8, srcB8, srcC8] = some sSPY ∧
    sSPY.symbol = "SPY" ∧ sGPRO.sentiment > sSPY.sentiment := by
  refine ⟨by decide, rfl, ?_⟩
  show mkRat 87 10 < mkRat 89 10
  decide

open DataProcessing in
/-- C9: when no source contributes a candidate to a category, the three
selection functions return `none` (for rising: `none`, not an empty list),
without failing; in particular all three return `none` on the empty analysis
list. -/
theorem C9_empty_pools_give_none (analysis : List Source)
    (htop : analysis.flatMap topCandidates = [])
    (hworst : analysis.flatMap worstCandidates = [])
    (hrising : analysis.flatMap risingCandidates = []) :
    get_top_stock analysis = none ∧ get_worst_stock analysis = none ∧
    ∀ limit : Int, get_rising_stock analysis limit = none := by
  unfold get_top_stock get_worst_stock get_rising_stock selectByCount selectRisingByCount
  rw [htop, hworst, hrising]
  simp

/-- Witness for C9 at the empty analysis list. -/
theorem C9_empty_pools_give_none_witness :
    DataProcessing.get_top_stock [] = none :=
  (C9_empty_pools_give_none [] rfl rfl rfl).1

open DataProcessing Fixtures in
/-- C3 (code bug exhibited): `get_rising_stock` ignores its `limit` parameter —
documented as "the maximum number of rising stocks to return", default 1 — and
always truncates to the hard-coded 3.  On a source with three rising entries
tied on sentiment it returns all three even with `limit = 1`, and the result
does not change with `limit`. -/
theorem C3_limit_parameter_ignored :
    (get_rising_stock [srcRise] 1).map List.length = some 3 ∧
    get_rising_stock [srcRise] 1 = get_rising_stock [srcRise] 2 ∧
    get_rising_stock [srcRise] 1
      = some [⟨"A", 3, 1⟩, ⟨"B", 2, 1⟩, ⟨"C", 1, 1⟩] := by
  refine ⟨by decide, rfl, by decide⟩

namespace DataProcessing

lemma countSym_perm {pool pool' : List Stock} (h : pool.Perm pool') (sym : String) :
    countSym pool sym = countSym pool' sym :=
  (h.filter _).length_eq

lemma maxAppearances_perm {pool pool' : List Stock} (h : pool.Perm pool') :
    maxAppearances pool = maxAppearances pool' := by
  unfold maxAppearances
  have hmap : pool.map (fun st => countSym pool st.symbol)
      = pool.map (fun st => countSym pool' st.symbol) :=
    List.map_congr_left (fun st _ => countSym_perm h st.symbol)
  rw [hmap]
  exact (h.map _).foldl_eq 0

lemma mostFrequent_perm {pool pool' : List Stock} (h : pool.Perm pool') :
    (mostFrequent pool).Perm (mostFrequent pool') := by
  unfold mostFrequent
  have heq : pool'.filter (fun st => countSym pool' st.symbol == maxAppearances pool')
      = pool'.filter (fun st => countSym pool st.symbol == maxAppearances pool) := by
    apply List.filter_congr
    intro st _
    rw [countSym_perm h st.symbol, maxAppearances_perm h]
  rw [heq]
  exact h.filter _

lemma isEmpty_of_perm {pool pool' : List Stock} (h : pool.Perm pool') :
    pool.isEmpty = pool'.isEmpty := by
  cases pool with
  | nil => rw [h.nil_eq]
  | cons a l =>
    cases pool' with
    | nil => exact absurd h.symm.nil_eq (by simp)
    | cons b m => rfl

lemma selectByCount_perm {pool pool' : List Stock} (h : pool.Perm pool')
    (htf : TieFree pool) : selectByCount pool = selectByCount pool' := by
  unfold selectByCount
  rw [← isEmpty_of_perm h]
  by_cases he : pool.isEmpty
  · rw [if_pos he, if_pos he]
  · rw [if_neg he, if_neg he]
    have hmf := mostFrequent_perm h
    cases h1 : pyMaxByCount (mostFrequent pool) with
    | none =>
      have h2 : mostFrequent pool = [] := pyMaxByCount_eq_none.mp h1
      have h3 : mostFrequent pool' = [] := (h2 ▸ hmf).nil_eq.symm
      rw [pyMaxByCount_eq_none.mpr h3]
    | some s =>
      cases h2 : pyMaxByCount (mostFrequent pool') with
      | none =>
        have h3 : mostFrequent pool' = [] := pyMaxByCount_eq_none.mp h2
        have h4 : mostFrequent pool = [] := (h3 ▸ hmf).symm.nil_eq.symm
        rw [h4] at h1
        exact absurd h1 (by simp [pyMaxByCount])
      | some s' =>
        obtain ⟨hs_mem, hs_max⟩ := pyMaxByCount_spec h1
        obtain ⟨hs'_mem, hs'_max⟩ := pyMaxByCount_spec h2
        have hs'_mem' : s' ∈ mostFrequent pool := hmf.mem_iff.mpr hs'_mem
        have h3 : s.count ≤ s'.count := hs'_max s (hmf.mem_iff.mp hs_mem)
        have h4 : s'.count ≤ s.count := hs_max s' hs'_mem'
        rw [htf s hs_mem s' hs'_mem' (le_antisymm h3 h4)]

lemma insertByCountDesc_perm (s : Stock) (l : List Stock) :
    (insertByCountDesc s l).Perm (s :: l) := by
  induction l with
  | nil => exact List.Perm.refl _
  | cons t ts ih =>
    simp only [insertByCountDesc]
    split
    · exact (ih.cons t).trans (List.Perm.swap s t ts)
    · exact List.Perm.refl _

lemma sortByCountDesc_perm (l : List Stock) : (sortByCountDesc l).Perm l := by
  induction l with
  | nil => exact List.Perm.refl _
  | cons s ls ih =>
    simp only [sortByCountDesc, List.foldr_cons] at *
    exact (insertByCountDesc_perm s _).trans (ih.cons s)

lemma insertByCountDesc_sorted {l : List Stock} (s : Stock)
    (h : l.Pairwise (fun a b => b.count ≤ a.count)) :
    (insertByCountDesc s l).Pairwise (fun a b => b.count ≤ a.count) := by
  induction l with
  | nil => simp [insertByCountDesc]
  | cons t ts ih =>
    obtain ⟨ht, hts⟩ := List.pairwise_cons.mp h
    simp only [insertByCountDesc]
    split
    · rename_i hc
      refine List.pairwise_cons.mpr ⟨?_, ih hts⟩
      intro b hb
      rcases List.mem_cons.mp ((insertByCountDesc_perm s ts).mem_iff.mp hb) with h3 | h3
      · rw [h3]; exact le_of_lt hc
      · exact ht b h3
    · rename_i hc
      refine List.pairwise_cons.mpr ⟨?_, h⟩
      intro b hb
      rcases List.mem_cons.mp hb with h3 | h3
      · rw [h3]; omega
      · exact le_trans (ht b h3) (by omega)

lemma sortByCountDesc_sorted (l : List Stock) :
    (sortByCountDesc l).Pairwise (fun a b => b.count ≤ a.count) := by
  induction l with
  | nil => simp [sortByCountDesc]
  | cons s ls ih =>
    simp only [sortByCountDesc, List.foldr_cons] at *
    exact insertByCountDesc_sorted s ih

lemma selectRisingByCount_perm {pool pool' : List Stock} (h : pool.Perm pool')
    (htf : TieFree pool) : selectRisingByCount pool = selectRisingByCount pool' := by
  unfold selectRisingByCount
  rw [← isEmpty_of_perm h]
  by_cases he : pool.isEmpty
  · rw [if_pos he, if_pos he]
  · rw [if_neg he, if_neg he]
    have hmf := mostFrequent_perm h
    have hperm : (sortByCountDesc (mostFrequent pool)).Perm
        (sortByCountDesc (mostFrequent pool')) :=
      (sortByCountDesc_perm _).trans (hmf.trans (sortByCountDesc_perm _).symm)
    have heq : sortByCountDesc (mostFrequent pool) = sortByCountDesc (mostFrequent pool') := by
      refine List.Perm.eq_of_sorted ?_ (sortByCountDesc_sorted _) (sortByCountDesc_sorted _) hperm
      intro a b ha hb hab hba
      have ha' : a ∈ mostFrequent pool := (sortByCountDesc_perm _).mem_iff.mp ha
      have hb' : b ∈ mostFrequent pool :=
        hmf.mem_iff.mpr ((sortByCountDesc_perm _).mem_iff.mp hb)
      exact htf a ha' b hb' (le_antisymm hba hab)
    rw [heq]

end DataProcessing

open DataProcessing Fixtures in
/-- C5 fails as stated: with two sources whose single top entries tie on
sentiment, pool reappearance count and mention count but differ in symbol,
swapping the sources changes the stock `get_top_stock` returns. -/
theorem C5_counterexample :
    ([srcX, srcY] : List Source).Perm [srcY, srcX] ∧
    get_top_stock [srcX, srcY] ≠ get_top_stock [srcY, srcX] :=
  ⟨List.Perm.swap srcY srcX [], by decide⟩

open DataProcessing in
/-- C5 (amended): the three selection functions are invariant under any
permutation of the analysis list provided that, in each category, any two
Step-2 survivors that tie on within-source mention count are the same entry
(with genuinely distinct tied survivors, the winner follows pool order, hence
source order). -/
theorem C5_order_insensitive_when_tie_free (analysis analysis' : List Source)
    (hperm : analysis.Perm analysis')
    (htop : TieFree (analysis.flatMap topCandidates))
    (hworst : TieFree (analysis.flatMap worstCandidates))
    (hrising : TieFree (analysis.flatMap risingCandidates)) :
    get_top_stock analysis = get_top_stock analysis' ∧
    get_worst_stock analysis = get_worst_stock analysis' ∧
    ∀ limit : Int, get_rising_stock analysis limit = get_rising_stock analysis' limit :=
  ⟨selectByCount_perm (hperm.flatMap_right _) htop,
   selectByCount_perm (hperm.flatMap_right _) hworst,
   fun _ => selectRisingByCount_perm (hperm.flatMap_right _) hrising⟩

open DataProcessing Fixtures in
/-- Witness for C5 on a concrete tie-free pair of sources. -/
theorem C5_order_insensitive_when_tie_free_witness :
    get_top_stock [srcP, srcQ] = get_top_stock [srcQ, srcP] :=
  (C5_order_insensitive_when_tie_free [srcP, srcQ] [srcQ, srcP]
    (List.Perm.swap srcQ srcP []) (by decide) (by decide) (by decide)).1

/-! ## Theorems: single-source failure containment (`run_general_analysis`) -/

namespace DataProcessing

lemma topCandidates_empty (n : String) : topCandidates ⟨n, [], [], []⟩ = [] := rfl

lemma worstCandidates_empty (n : String) : worstCandidates ⟨n, [], [], []⟩ = [] := rfl

lemma risingCandidates_empty (n : String) : risingCandidates ⟨n, [], [], []⟩ = [] := rfl

end DataProcessing

open DataProcessing MarketSentimentAnalysis in
/-- C2: when exactly one source's fetch collaborator raises, the aggregate run
still completes (one result per source), the failing source contributes empty
category lists, and each selection function returns the same answer as on the
run without the failing source. -/
theorem C2_single_source_failure_contained (pre post : List SourceFetch) (bad : SourceFetch)
    (hbad : bad.outcome = FetchOutcome.failed)
    (hok : ∀ s ∈ pre ++ post, s.outcome ≠ FetchOutcome.failed) :
    (run_general_analysis (pre ++ bad :: post)).length = (pre ++ bad :: post).length ∧
    run_general_analysis (pre ++ bad :: post)
      = run_general_analysis pre
          ++ (⟨bad.name, [], [], []⟩ : Source) :: run_general_analysis post ∧
    get_top_stock (run_general_analysis (pre ++ bad :: post))
      = get_top_stock (run_general_analysis (pre ++ post)) ∧
    get_worst_stock (run_general_analysis (pre ++ bad :: post))
      = get_worst_stock (run_general_analysis (pre ++ post)) ∧
    ∀ limit : Int, get_rising_stock (run_general_analysis (pre ++ bad :: post)) limit
      = get_rising_stock (run_general_analysis (pre ++ post)) limit := by
  have hcollect : collectSource bad = ⟨bad.name, [], [], []⟩ := by
    unfold collectSource
    rw [hbad]
  have htop : (run_general_analysis (pre ++ bad :: post)).flatMap topCandidates
      = (run_general_analysis (pre ++ post)).flatMap topCandidates := by
    simp [run_general_analysis, hcollect, topCandidates_empty]
  have hworst : (run_general_analysis (pre ++ bad :: post)).flatMap worstCandidates
      = (run_general_analysis (pre ++ post)).flatMap worstCandidates := by
    simp [run_general_analysis, hcollect, worstCandidates_empty]
  have hrising : (run_general_analysis (pre ++ bad :: post)).flatMap risingCandidates
      = (run_general_analysis (pre ++ post)).flatMap risingCandidates := by
    simp [run_general_analysis, hcollect, risingCandidates_empty]
  refine ⟨by simp [run_general_analysis], ?_, ?_, ?_, ?_⟩
  · simp [run_general_analysis, hcollect]
  · unfold get_top_stock
    rw [htop]
  · unfold get_worst_stock
    rw [hworst]
  · intro limit
    unfold get_rising_stock
    rw [hrising]

open DataProcessing MarketSentimentAnalysis Fixtures in
/-- Witness for C2: with one succeeding and one failing source, the selection
equals the selection over the succeeding source alone. -/
theorem C2_single_source_failure_contained_witness :
    get_top_stock (run_general_analysis [fetchOk, fetchBad])
      = get_top_stock (run_general_analysis [fetchOk]) :=
  (C2_single_source_failure_contained [fetchOk] [] fetchBad rfl (by decide)).2.2.1

/-! ## Theorems: the freshness cache (`main.py`) -/

open Main Fixtures in
/-- C6 fails as stated at the TTL boundary: a request arriving when the stored
result is exactly 24 hours old (age = TTL, not strictly below it) is still
served from the cache with no recomputation, whereas the claim requires a
recomputation once age ≥ TTL. -/
theorem C6_counterexample :
    is_cache_outdated (some cCache) 86400 = false ∧
    getgeneralanalysis (some cCache) 86400 cFresh = ⟨cCache, some cCache, 0⟩ ∧
    (86400 : Int) - 0 ≥ 24 * 60 * 60 := by
  refine ⟨rfl, ?_, by omega⟩
  decide

open Main in
/-- C6 (amended): a request is answered from the cache with no recomputation
exactly when a result with a readable timestamp is stored and its age is at
most the 24-hour TTL; two requests while the age stays within the TTL both
return the stored result with the identical `last_updated`; a request finding
the cache outdated (age strictly above the TTL, or nothing stored, or no
readable timestamp) performs exactly one recomputation before responding. -/
theorem C6_cache_ttl (cache : Option Main.CachedAnalysis) (now : Int)
    (fresh : Main.CachedAnalysis) :
    ((getgeneralanalysis cache now fresh).recomputes = 0 ↔
      ∃ c t, cache = some c ∧ c.last_updated = some t ∧ now - t ≤ 86400) ∧
    (∀ c t, cache = some c → c.last_updated = some t → now - t ≤ 86400 →
      getgeneralanalysis cache now fresh = ⟨c, some c, 0⟩) ∧
    (is_cache_outdated cache now = true →
      getgeneralanalysis cache now fresh = ⟨fresh, some fresh, 1⟩) ∧
    (∀ c t now₁ now₂, cache = some c → c.last_updated = some t →
      now₁ - t ≤ 86400 → now₂ - t ≤ 86400 →
      (getgeneralanalysis cache now₁ fresh).response.last_updated = some t ∧
      (getgeneralanalysis (getgeneralanalysis cache now₁ fresh).newCache
        now₂ fresh).response.last_updated = some t ∧
      (getgeneralanalysis cache now₁ fresh).recomputes = 0 ∧
      (getgeneralanalysis (getgeneralanalysis cache now₁ fresh).newCache
        now₂ fresh).recomputes = 0) := by
  have hserve : ∀ (c : Main.CachedAnalysis) t (n : Int), c.last_updated = some t →
      n - t ≤ 86400 → getgeneralanalysis (some c) n fresh = ⟨c, some c, 0⟩ := by
    intro c t n hlu hle
    simp only [getgeneralanalysis, is_cache_outdated, hlu, decide_eq_true_eq]
    rw [if_pos]
    omega
  have hstale : ∀ (c : Main.CachedAnalysis) t (n : Int), c.last_updated = some t →
      86400 < n - t → getgeneralanalysis (some c) n fresh = ⟨fresh, some fresh, 1⟩ := by
    intro c t n hlu hlt
    simp only [getgeneralanalysis, is_cache_outdated, hlu, decide_eq_true_eq]
    rw [if_neg]
    omega
  have hnolu : ∀ (c : Main.CachedAnalysis) (n : Int), c.last_updated = none →
      getgeneralanalysis (some c) n fresh = ⟨fresh, some fresh, 1⟩ := by
    intro c n hlu
    simp [getgeneralanalysis, is_cache_outdated, hlu]
  refine ⟨?_, fun c t hc hlu hle => by rw [hc]; exact hserve c t now hlu hle, ?_, ?_⟩
  · cases cache with
    | none =>
      simp only [getgeneralanalysis]
      constructor
      · intro h
        exact absurd h (by simp)
      · rintro ⟨c, t, hc, -, -⟩
        exact absurd hc (by simp)
    | some c =>
      cases hlu : c.last_updated with
      | none =>
        rw [hnolu c now hlu]
        constructor
        · intro h
          exact absurd h (by simp)
        · rintro ⟨c2, t, hc, hlu2, -⟩
          rw [Option.some.injEq] at hc
          subst hc
          rw [hlu] at hlu2
          exact absurd hlu2 (by simp)
      | some t =>
        by_cases hle : now - t ≤ 86400
        · rw [hserve c t now hlu hle]
          exact ⟨fun _ => ⟨c, t, rfl, hlu, hle⟩, fun _ => rfl⟩
        · rw [hstale c t now hlu (by omega)]
          constructor
          · intro h
            exact absurd h (by simp)
          · rintro ⟨c2, t2, hc, hlu2, hle2⟩
            rw [Option.some.injEq] at hc
            subst hc
            rw [hlu, Option.some.injEq] at hlu2
            subst hlu2
            omega
  · intro hout
    cases cache with
    | none => simp [getgeneralanalysis]
    | some c =>
      cases hlu : c.last_updated with
      | none => exact hnolu c now hlu
      | some t =>
        simp only [is_cache_outdated, hlu, decide_eq_true_eq] at hout
        exact hstale c t now hlu (by omega)
  · intro c t now1 now2 hc hlu h1 h2
    rw [hc, hserve c t now1 hlu h1]
    dsimp only
    rw [hserve c t now2 hlu h2]
    exact ⟨hlu, hlu, rfl, rfl⟩

open Main Fixtures in
/-- Witness for C6: a request one second after storage is served from the
cache unchanged. -/
theorem C6_cache_ttl_witness :
    getgeneralanalysis (some cCache) 1 cFresh = ⟨cCache, some cCache, 0⟩ :=
  (C6_cache_ttl (some cCache) 1 cFresh).2.1 cCache 0 rfl rfl (by omega)

/-! ## Theorems: the per-source classifier (`get_reddit_analysis`) -/

namespace SentimentAnalysis

lemma insertBySentDesc_perm (x : String × Mention) (l : List (String × Mention)) :
    (insertBySentDesc x l).Perm (x :: l) := by
  induction l with
  | nil => exact List.Perm.refl _
  | cons y ys ih =>
    simp only [insertBySentDesc]
    split
    · exact (ih.cons y).trans (List.Perm.swap x y ys)
    · exact List.Perm.refl _

lemma sortBySentDesc_perm (l : List (String × Mention)) : (sortBySentDesc l).Perm l := by
  induction l with
  | nil => exact List.Perm.refl _
  | cons x xs ih =>
    simp only [sortBySentDesc, List.foldr_cons] at *
    exact (insertBySentDesc_perm x _).trans (ih.cons x)

lemma insertBySentDesc_sorted {l : List (String × Mention)} (x : String × Mention)
    (h : l.Pairwise (fun a b => b.2.sentiment ≤ a.2.sentiment)) :
    (insertBySentDesc x l).Pairwise (fun a b => b.2.sentiment ≤ a.2.sentiment) := by
  induction l with
  | nil => simp [insertBySentDesc]
  | cons y ys ih =>
    obtain ⟨hy, hys⟩ := List.pairwise_cons.mp h
    simp only [insertBySentDesc]
    split
    · rename_i hc
      refine List.pairwise_cons.mpr ⟨?_, ih hys⟩
      intro b hb
      rcases List.mem_cons.mp ((insertBySentDesc_perm x ys).mem_iff.mp hb) with h3 | h3
      · rw [h3]; exact le_of_lt hc
      · exact hy b h3
    · rename_i hc
      refine List.pairwise_cons.mpr ⟨?_, h⟩
      intro b hb
      rcases List.mem_cons.mp hb with h3 | h3
      · rw [h3]; exact le_of_not_lt hc
      · exact le_trans (hy b h3) (le_of_not_lt hc)

lemma sortBySentDesc_sorted (l : List (String × Mention)) :
    (sortBySentDesc l).Pairwise (fun a b => b.2.sentiment ≤ a.2.sentiment) := by
  induction l with
  | nil => simp [sortBySentDesc]
  | cons x xs ih =>
    simp only [sortBySentDesc, List.foldr_cons] at *
    exact insertBySentDesc_sorted x ih

lemma take_min_length (l : List α) (k : Nat) : l.take (min k l.length) = l.take k := by
  rcases le_total k l.length with h | h
  · rw [min_eq_left h]
  · rw [min_eq_right h, List.take_length, List.take_of_length_le h]

end SentimentAnalysis

open SentimentAnalysis Fixtures in
/-- C4 fails as stated for an odd limit: with limit 1 and a single-entry
mapping, the code's `sorted_stocks[-1 // 2 :]` keeps the whole (one-entry)
list, while the claim's "last ⌊limit/2⌋ = 0 entries" would be empty. -/
theorem C4_counterexample :
    (get_reddit_analysis [eC4] 1).2.1 = [eC4] ∧
    (sortBySentDesc [eC4]).drop ((sortBySentDesc [eC4]).length - 1 / 2) = [] ∧
    ([eC4] : List (String × Mention)) ≠ [] := by decide

open SentimentAnalysis in
/-- C4 (amended): the classifier sorts the mapping's entries by sentiment
descending (a stable sort: the output is a permutation, pairwise
non-increasing); `top_stocks` is the first ⌊limit/2⌋ entries; `worst_stocks`
is the last min(⌈limit/2⌉, length) entries when `limit ≥ 1` and the whole
sorted list when `limit = 0`; `rising_stocks` keeps exactly the entries with
sentiment > 0.5 in sorted order; the empty mapping yields three empty lists. -/
theorem C4_classifier_slices (sentiment_data : List (String × Mention)) (limit : Nat) :
    (sortBySentDesc sentiment_data).Perm sentiment_data ∧
    (sortBySentDesc sentiment_data).Pairwise (fun a b => b.2.sentiment ≤ a.2.sentiment) ∧
    (get_reddit_analysis sentiment_data (limit : Int)).1
      = (sortBySentDesc sentiment_data).take (limit / 2) ∧
    (0 < limit → (get_reddit_analysis sentiment_data (limit : Int)).2.1
      = (sortBySentDesc sentiment_data).drop
          ((sortBySentDesc sentiment_data).length
            - min ((limit + 1) / 2) (sortBySentDesc sentiment_data).length)) ∧
    (limit = 0 → (get_reddit_analysis sentiment_data (limit : Int)).2.1
      = sortBySentDesc sentiment_data) ∧
    (get_reddit_analysis sentiment_data (limit : Int)).2.2
      = (sortBySentDesc sentiment_data).filter (fun s => (1:ℚ)/2 < s.2.sentiment) ∧
    (sentiment_data = [] → get_reddit_analysis sentiment_data (limit : Int) = ([], [], [])) := by
  refine ⟨sortBySentDesc_perm _, sortBySentDesc_sorted _, ?_, ?_, ?_, ?_, ?_⟩
  · show pySliceTo (sortBySentDesc sentiment_data) (Int.fdiv (limit : Int) 2)
      = (sortBySentDesc sentiment_data).take (limit / 2)
    have hidx : Int.fdiv (limit : Int) 2 = ((limit / 2 : Nat) : Int) := by
      rw [Int.fdiv_eq_ediv _ (by omega)]
      omega
    rw [hidx]
    unfold pySliceTo pySliceIdx
    rw [if_pos (by omega)]
    have htn : (((limit / 2 : Nat) : Int)).toNat = limit / 2 := by omega
    rw [htn]
    exact take_min_length _ _
  · intro hl
    show pySliceFrom (sortBySentDesc sentiment_data) (Int.fdiv (-(limit : Int)) 2) = _
    have hidx : Int.fdiv (-(limit : Int)) 2 = -(((limit + 1) / 2 : Nat) : Int) := by
      rw [Int.fdiv_eq_ediv _ (by omega)]
      omega
    rw [hidx]
    unfold pySliceFrom pySliceIdx
    rw [if_neg (by omega)]
    congr 1
    omega
  · intro h0
    subst h0
    show pySliceFrom (sortBySentDesc sentiment_data) (Int.fdiv (-((0 : Nat) : Int)) 2) = _
    have hidx : Int.fdiv (-((0 : Nat) : Int)) 2 = 0 := rfl
    rw [hidx]
    unfold pySliceFrom pySliceIdx
    rw [if_pos le_rfl]
    simp
  · show (sortBySentDesc sentiment_data).filter (fun s => mkRat 1 2 < s.2.sentiment) = _
    apply List.filter_congr
    intro x _
    have : mkRat 1 2 = (1:ℚ)/2 := by norm_num [Rat.mkRat_eq_div]
    rw [this]
  · intro h
    subst h
    simp [get_reddit_analysis, sortBySentDesc, pySliceTo, pySliceFrom]

open SentimentAnalysis Fixtures in
/-- Witness for C4: the worst slice at limit 5 on a one-entry mapping is the
whole list. -/
theorem C4_classifier_slices_witness :
    (get_reddit_analysis [eC4] ((5 : Nat) : Int)).2.1
      = (sortBySentDesc [eC4]).drop
          ((sortBySentDesc [eC4]).length - min ((5 + 1) / 2) (sortBySentDesc [eC4]).length) :=
  (C4_classifier_slices [eC4] 5).2.2.2.1 (by omega)

/-! ## Theorems: mention extraction and normalization (`extract_stock_mentions`) -/

namespace SentimentAnalysis

lemma update_changes (st : List (String × MentionData)) (sym : String) (sc : ℚ) (p : RawPost) :
    sentimentsOf (updateMention st sym sc p) sym = sentimentsOf st sym ++ [roundq2 sc] ∧
    countOf (updateMention st sym sc p) sym = countOf st sym + 1 := by
  induction st with
  | nil => simp [updateMention, sentimentsOf, countOf, assocFind]
  | cons e rest ih =>
    obtain ⟨s, d⟩ := e
    by_cases hs : s = sym
    · subst hs
      simp [updateMention, sentimentsOf, countOf, assocFind]
    · simp only [updateMention, sentimentsOf, countOf, assocFind,
        beq_iff_eq, if_neg hs] at *
      exact ih

lemma update_keeps (st : List (String × MentionData)) {sym other : String} (sc : ℚ)
    (p : RawPost) (h : other ≠ sym) :
    sentimentsOf (updateMention st sym sc p) other = sentimentsOf st other ∧
    countOf (updateMention st sym sc p) other = countOf st other := by
  induction st with
  | nil =>
    simp [updateMention, sentimentsOf, countOf, assocFind, Ne.symm h]
  | cons e rest ih =>
    obtain ⟨s, d⟩ := e
    by_cases hs : s = sym
    · subst hs
      have hno : s ≠ other := Ne.symm h
      simp [updateMention, sentimentsOf, countOf, assocFind, hno]
    · by_cases hs2 : s = other
      · subst hs2
        simp [updateMention, sentimentsOf, countOf, assocFind, hs]
      · simp only [updateMention, sentimentsOf, countOf, assocFind,
          beq_iff_eq, if_neg hs, if_neg hs2] at *
        exact ih

lemma matches_fold_spec (ms : List String) (sc : ℚ) (p : RawPost) :
    ∀ (st : List (String × MentionData)) (sym : String),
    sentimentsOf (ms.foldl (fun st2 m => updateMention st2 m sc p) st) sym
      = sentimentsOf st sym ++ (ms.filter (fun m => m == sym)).map (fun _ => roundq2 sc) ∧
    countOf (ms.foldl (fun st2 m => updateMention st2 m sc p) st) sym
      = countOf st sym + (ms.filter (fun m => m == sym)).length := by
  induction ms with
  | nil => intro st sym; simp
  | cons m ms ih =>
    intro st sym
    simp only [List.foldl_cons]
    obtain ⟨ih1, ih2⟩ := ih (updateMention st m sc p) sym
    by_cases hm : m = sym
    · subst hm
      obtain ⟨hc1, hc2⟩ := update_changes st m sc p
      constructor
      · rw [ih1, hc1]
        simp [List.filter_cons]
      · rw [ih2, hc2]
        simp only [List.filter_cons, beq_self_eq_true, if_pos, List.length_cons]
        omega
    · obtain ⟨hk1, hk2⟩ := update_keeps st sc p (Ne.symm hm)
      constructor
      · rw [ih1, hk1]
        simp [List.filter_cons, hm]
      · rw [ih2, hk2]
        simp [List.filter_cons, hm]

lemma accumulate_spec (posts : List RawPost) :
    ∀ (st : List (String × MentionData)) (sym : String),
    sentimentsOf (posts.foldl processPost st) sym
      = sentimentsOf st sym ++ scoresFor posts sym ∧
    countOf (posts.foldl processPost st) sym
      = countOf st sym + (scoresFor posts sym).length := by
  induction posts with
  | nil => intro st sym; simp [scoresFor]
  | cons p ps ih =>
    intro st sym
    simp only [List.foldl_cons]
    obtain ⟨ih1, ih2⟩ := ih (processPost st p) sym
    obtain ⟨hm1, hm2⟩ := matches_fold_spec p.tickerMatches p.score p st sym
    have hsf : scoresFor (p :: ps) sym
        = (p.tickerMatches.filter (fun m => m == sym)).map (fun _ => roundq2 p.score)
          ++ scoresFor ps sym := by
      simp [scoresFor]
    constructor
    · rw [ih1]
      show sentimentsOf (processPost st p) sym ++ scoresFor ps sym = _
      unfold processPost
      rw [hm1, hsf, List.append_assoc]
    · rw [ih2]
      show countOf (processPost st p) sym + (scoresFor ps sym).length = _
      unfold processPost
      rw [hm2, hsf]
      simp
      omega

lemma assocFind_map_finalize (l : List (String × MentionData)) (sym : String) :
    assocFind (l.map (fun e => (e.1, finalizeMention e.2))) sym
      = (assocFind l sym).map finalizeMention := by
  induction l with
  | nil => rfl
  | cons e rest ih =>
    obtain ⟨s, d⟩ := e
    by_cases hs : s = sym
    · subst hs
      simp [assocFind]
    · simp [assocFind, hs, ih]

end SentimentAnalysis

namespace SentimentAnalysis

lemma roundq2_eval_low (x : ℚ) (n : Int) (hf : ⌊x * 100⌋ = n)
    (hlt : x * 100 - n < 1/2) : roundq2 x = (n : ℚ) / 100 := by
  unfold roundq2 roundHalfEven
  rw [hf, if_pos hlt]

lemma roundq2_eval_high (x : ℚ) (n : Int) (hf : ⌊x * 100⌋ = n)
    (h1 : ¬ (x * 100 - n < 1/2)) (h2 : 1/2 < x * 100 - n) :
    roundq2 x = ((n : ℚ) + 1) / 100 := by
  unfold roundq2 roundHalfEven
  rw [hf, if_neg h1, if_pos h2]
  push_cast
  ring

end SentimentAnalysis

open SentimentAnalysis Fixtures in
/-- C7 fails as stated: on three posts mentioning `$A` with scores 0.01, 0.01
and 0.03, the accumulator mean is 1/60 and `normalize(avg)` is 1/6, but the
emitted sentiment is the two-decimal rounding 0.17 ≠ 1/6. -/
theorem C7_counterexample :
    (assocFind (extract_stock_mentions c7posts) "$A").map (fun e => e.sentiment)
      = some ((17 : ℚ) / 100) ∧
    normalize_score ((scoresFor c7posts "$A").sum / ((scoresFor c7posts "$A").length : ℚ))
      = (1 : ℚ) / 6 ∧
    ((17 : ℚ) / 100) ≠ (1 : ℚ) / 6 := by
  have hr1 : roundq2 (mkRat 1 100) = (1 : ℚ) / 100 := by
    have hf : ⌊(mkRat 1 100) * 100⌋ = 1 := by
      rw [Int.floor_eq_iff]
      constructor <;> norm_num [Rat.mkRat_eq_div]
    have := roundq2_eval_low (mkRat 1 100) 1 hf (by norm_num [Rat.mkRat_eq_div])
    simpa using this
  have hr3 : roundq2 (mkRat 3 100) = (3 : ℚ) / 100 := by
    have hf : ⌊(mkRat 3 100) * 100⌋ = 3 := by
      rw [Int.floor_eq_iff]
      constructor <;> norm_num [Rat.mkRat_eq_div]
    have := roundq2_eval_low (mkRat 3 100) 3 hf (by norm_num [Rat.mkRat_eq_div])
    simpa using this
  have hsf : scoresFor c7posts "$A"
      = [roundq2 (mkRat 1 100), roundq2 (mkRat 1 100), roundq2 (mkRat 3 100)] := rfl
  have hmean : (scoresFor c7posts "$A").sum / ((scoresFor c7posts "$A").length : ℚ)
      = 1 / 60 := by
    rw [hsf, hr1, hr3]
    norm_num
  have hnorm : normalize_score ((1 : ℚ) / 60) = 1 / 6 := by
    unfold normalize_score
    rw [if_pos (Or.inl (by norm_num))]
    norm_num
  have hfinal : roundq2 ((1 : ℚ) / 6) = 17 / 100 := by
    have hf : ⌊((1 : ℚ) / 6) * 100⌋ = 16 := by
      rw [Int.floor_eq_iff]
      constructor <;> norm_num
    rw [roundq2_eval_high ((1 : ℚ) / 6) 16 hf (by norm_num) (by norm_num)]
    norm_num
  refine ⟨?_, by rw [hmean]; exact hnorm, by norm_num⟩
  have hfind : (assocFind (extract_stock_mentions c7posts) "$A").map (fun e => e.sentiment)
      = some (roundq2 (normalize_score
          ((scoresFor c7posts "$A").sum / ((scoresFor c7posts "$A").length : ℚ)))) := rfl
  rw [hfind, hmean, hnorm, hfinal]

open SentimentAnalysis in
/-- C7 (amended): every symbol in the extractor's output carries
`count` equal to its number of regex occurrences and `sentiment` equal to
`round(normalize(avg), 2)` — the two-decimal rounding of `normalize(avg)` —
where `avg` is the arithmetic mean of the per-occurrence scores accumulated
for that symbol (each rounded to two decimals on accumulation), and
`normalize(x) = x * 10` for `x ≠ 0` and `0` for `x = 0`. -/
theorem C7_sentiment_normalization (posts : List RawPost) (sym : String)
    (e : ExtractedMention)
    (h : assocFind (extract_stock_mentions posts) sym = some e) :
    (e.sentiment
        = roundq2 (normalize_score
            ((scoresFor posts sym).sum / ((scoresFor posts sym).length : ℚ))) ∧
      e.count = (scoresFor posts sym).length) ∧
    ∀ x : ℚ, normalize_score x = if x = 0 then 0 else x * 10 := by
  constructor
  · unfold extract_stock_mentions at h
    rw [assocFind_map_finalize] at h
    cases hacc : assocFind (accumulateMentions posts) sym with
    | none => rw [hacc] at h; exact absurd h (by simp)
    | some d =>
      rw [hacc] at h
      replace h : finalizeMention d = e := by simpa using h
      obtain ⟨hs, hc⟩ := accumulate_spec posts [] sym
      have hsent : d.sentiments = scoresFor posts sym := by
        have h2 : sentimentsOf (accumulateMentions posts) sym = d.sentiments := by
          unfold sentimentsOf
          rw [hacc]
        rw [← h2]
        unfold accumulateMentions
        simpa [sentimentsOf, assocFind] using hs
      have hcount : d.count = (scoresFor posts sym).length := by
        have h2 : countOf (accumulateMentions posts) sym = d.count := by
          unfold countOf
          rw [hacc]
        rw [← h2]
        unfold accumulateMentions
        simpa [countOf, assocFind] using hc
      subst h
      unfold finalizeMention
      constructor
      · by_cases hemp : d.sentiments.isEmpty
        · have hnil : scoresFor posts sym = [] := by
            rw [← hsent]
            exact List.isEmpty_iff.mp hemp
          rw [if_pos hemp, hnil]
          norm_num [normalize_score, roundq2, roundHalfEven]
        · rw [if_neg hemp, hsent]
      · exact hcount
  · intro x
    unfold normalize_score
    by_cases hx : x = 0
    · subst hx
      norm_num
    · rcases Ne.lt_or_lt hx with hlt | hlt
      · rw [if_pos (Or.inr hlt), if_neg hx]
      · rw [if_pos (Or.inl hlt), if_neg hx]

open SentimentAnalysis Fixtures in
/-- Witness for C7: the count of `$A` on the concrete three-post input equals
its number of occurrences. -/
theorem C7_sentiment_normalization_witness :
    (⟨3, (17 : ℚ)/100, some ⟨["$A"], mkRat 3 100⟩⟩ : ExtractedMention).count
      = (scoresFor c7posts "$A").length :=
  (C7_sentiment_normalization c7posts "$A" _ rfl).1.2

/-! ## Theorems: merging market data (`merge_stock_data`) -/

open MarketAnalysis in
/-- C10: `merge_stock_data` emits exactly the categories whose value is not
`None`, in order and under their original names; within a kept category every
entry is emitted (in order) through the enrichment, which keeps the entry's
symbol (marker prefix included), count, sentiment and post verbatim; an entry
whose market-data lookup fails is still emitted, with an error field and all
market fields `None`. -/
theorem C10_merge_preserves_sentiment_fields (quote : String → QuoteResult)
    (reddit_analysis : List (String × Option (List (String × Details)))) :
    ((merge_stock_data quote reddit_analysis).map Prod.fst
      = (reddit_analysis.filter (fun e => e.2.isSome)).map Prod.fst) ∧
    (∀ p ∈ merge_stock_data quote reddit_analysis,
      ∃ stocks, (p.1, some stocks) ∈ reddit_analysis ∧
        p.2 = stocks.map (enrichStock quote)) ∧
    (∀ entry : String × Details,
      (enrichStock quote entry).symbol = entry.1 ∧
      (enrichStock quote entry).count = entry.2.count ∧
      (enrichStock quote entry).sentiment = entry.2.sentiment ∧
      (enrichStock quote entry).post = entry.2.post ∧
      ((enrichStock quote entry).error.isSome →
        (enrichStock quote entry).company_name = none ∧
        (enrichStock quote entry).price = none ∧
        (enrichStock quote entry).high = none ∧
        (enrichStock quote entry).low = none ∧
        (enrichStock quote entry).change = none ∧
        (enrichStock quote entry).percentage_change = none ∧
        (enrichStock quote entry).rsi = none)) := by
  refine ⟨?_, ?_, ?_⟩
  · induction reddit_analysis with
    | nil => rfl
    | cons e rest ih =>
      cases he : e.2 with
      | none => simpa [merge_stock_data, List.filterMap_cons, he] using ih
      | some stocks =>
        simpa [merge_stock_data, List.filterMap_cons, he] using ih
  · intro p hp
    induction reddit_analysis with
    | nil => simp [merge_stock_data] at hp
    | cons e rest ih =>
      cases he : e.2 with
      | none =>
        rw [show merge_stock_data quote (e :: rest) = merge_stock_data quote rest by
          simp [merge_stock_data, List.filterMap_cons, he]] at hp
        obtain ⟨stocks, hmem, heq⟩ := ih hp
        exact ⟨stocks, List.mem_cons_of_mem e hmem, heq⟩
      | some stocks =>
        rw [show merge_stock_data quote (e :: rest)
            = (e.1, stocks.map (enrichStock quote)) :: merge_stock_data quote rest by
          simp [merge_stock_data, List.filterMap_cons, he]] at hp
        rcases List.mem_cons.mp hp with h1 | h1
        · refine ⟨stocks, ?_, by rw [h1]⟩
          have : (p.1, some stocks) = e := by
            rw [h1, ← he]
          rw [this]
          exact List.mem_cons_self e rest
        · obtain ⟨stocks2, hmem, heq⟩ := ih h1
          exact ⟨stocks2, List.mem_cons_of_mem e hmem, heq⟩
  · intro entry
    unfold enrichStock
    cases hq : quote (stripDollar entry.1) with
    | err msg => simp
    | ok d => simp

open MarketAnalysis Fixtures in
/-- Witness for C10: the entry whose lookup fails keeps its sentiment. -/
theorem C10_merge_preserves_sentiment_fields_witness :
    (enrichStock quoteFix ("$BAD", ⟨1, -1, "p2"⟩)).sentiment = (-1 : ℚ) := by
  have h := (C10_merge_preserves_sentiment_fields quoteFix raFix).2.2 ("$BAD", ⟨1, -1, "p2"⟩)
  rw [h.2.2.1]
